import Mathlib

/-!
Shallow embedding of the containers generated by the `soaaos` `layout`
attribute macro (src/src/lib.rs).  The macro receives one struct schema
(an ordered, non-empty list of named typed fields) and a strategy token,
and emits either a Struct-of-Arrays (`soa`) container or an
Array-of-Structs (`aos`) container together with shared scaffolding
(id type, error type, record-reference type, iterator, diff).

The embedding is generic over the schema: a schema is a number of fields
`N > 0`, a type family `Ty : Fin N → Type` (each with decidable equality,
modelling the `PartialEq` bound the generated diff requires; equality of
Rust `Debug + PartialEq` values is modelled by propositional equality),
a field-name function (used by `diff`, via `stringify!`) and a per-field
`Debug` rendering function (the `{:?}` format used by `diff`).

Machine integers: the generated id type `XId` wraps a `u32`.  Ids are
modelled as `Nat` carrying the numeric value of that `u32`; every place
the Rust code narrows a `usize` to `u32` (`as u32`) is modelled by
`u32cast`, i.e. reduction mod 2^32, and every place it widens a `u32` to
`usize` (`as usize`) is the identity on the value.  The iterator's
`self.index.0 + 1` is `u32` addition, modelled as wrapping (the release
profile semantics of Rust integer addition).
-/

set_option autoImplicit false

/-- Narrowing cast `usize as u32`: the value is reduced modulo 2^32. -/
def u32cast (n : Nat) : Nat := n % 4294967296

/-- A record schema: the ordered field list `(name, type)` of the struct the
`layout` macro is applied to.  Field `i`'s type is `Ty i`, its name is
`fname i`, and `fmt i` is its `Debug` rendering. -/
structure Schema where
  N : Nat
  npos : 0 < N
  Ty : Fin N → Type
  deq : ∀ i, DecidableEq (Ty i)
  fname : Fin N → String
  fmt : ∀ i, Ty i → String

attribute [instance] Schema.deq

/-- A record conforming to a schema: one value per field.  This models both
the original struct `X` and (by value) the generated borrowed view `XRef`. -/
def Schema.Record (S : Schema) : Type := ∀ i : Fin S.N, S.Ty i

/-- The first declared field of the schema (`first_field` in the macro). -/
def Schema.first (S : Schema) : Fin S.N := ⟨0, S.npos⟩

/-- The generated error enum `XsError`: one `NotFound_f` variant per field
`f`, plus `InvalidDiff`. -/
inductive XsError (S : Schema) where
  | NotFound (f : Fin S.N)
  | InvalidDiff
deriving DecidableEq

/-- The generated Struct-of-Arrays container `XsLayout` (soa arm): one
vector per field. -/
structure SoaLayout (S : Schema) where
  cols : ∀ i : Fin S.N, List (S.Ty i)

/-- The generated Array-of-Structs container `XsLayout` (aos arm): one
vector of whole records. -/
structure AosLayout (S : Schema) where
  data : List S.Record

/-- Soa `new()`: every field vector starts empty. -/
def SoaLayout.new (S : Schema) : SoaLayout S := ⟨fun _ => []⟩

/-- Soa `with_capacity(size)`: `Vec::with_capacity` pre-reserves storage but
holds no elements, so its observable contents equal `new()`. -/
def SoaLayout.with_capacity (S : Schema) (_size : Nat) : SoaLayout S := ⟨fun _ => []⟩

/-- Soa `len()`: the length of the first field's vector. -/
def SoaLayout.len {S : Schema} (c : SoaLayout S) : Nat := (c.cols S.first).length

/-- Soa `is_empty()`: `self.len() == 0`. -/
def SoaLayout.is_empty {S : Schema} (c : SoaLayout S) : Bool := c.len == 0

/-- Soa `add(item)`: the id is the first field's current length narrowed
`as u32`; each field value is pushed onto its vector; the id is returned. -/
def SoaLayout.add {S : Schema} (c : SoaLayout S) (item : S.Record) :
    Nat × SoaLayout S :=
  (u32cast (c.cols S.first).length, ⟨fun i => c.cols i ++ [item i]⟩)

/-- Soa `field_f()`: an iterator over field `f`'s vector, modelled as the
list of its values in order. -/
def SoaLayout.field {S : Schema} (c : SoaLayout S) (f : Fin S.N) : List (S.Ty f) :=
  c.cols f

/-- Soa `get_f(index)`: `self.f.get(index.0 as usize).ok_or_else(NotFound_f)`. -/
def SoaLayout.get {S : Schema} (c : SoaLayout S) (f : Fin S.N) (id : Nat) :
    Except (XsError S) (S.Ty f) :=
  match (c.cols f)[id]? with
  | some v => .ok v
  | none => .error (.NotFound f)

/-- Soa `get_f_enumerated()`: field `f`'s vector enumerated, each index
narrowed `as u32` to form the id. -/
def SoaLayout.get_enumerated {S : Schema} (c : SoaLayout S) (f : Fin S.N) :
    List (Nat × S.Ty f) :=
  (c.cols f).enum.map (fun p => (u32cast p.1, p.2))

/-- Soa `get_f_mut(index)` followed by overwriting the returned reference
with `v` when it succeeds: `self.f.get_mut(index.0 as usize)` bounds-checks
against field `f`'s vector; on success the element at `index` becomes `v`,
on failure `NotFound_f` is returned and the container is untouched. -/
def SoaLayout.get_mut_set {S : Schema} (c : SoaLayout S) (f : Fin S.N)
    (id : Nat) (v : S.Ty f) : Except (XsError S) Unit × SoaLayout S :=
  if id < (c.cols f).length then
    (.ok ⟨⟩, ⟨Function.update c.cols f ((c.cols f).set id v)⟩)
  else
    (.error (.NotFound f), c)

/-- Aos `new()`: the record vector starts empty. -/
def AosLayout.new (S : Schema) : AosLayout S := ⟨[]⟩

/-- Aos `with_capacity(size)`: pre-reserved but observably empty. -/
def AosLayout.with_capacity (S : Schema) (_size : Nat) : AosLayout S := ⟨[]⟩

/-- Aos `len()`: `self.data.len()`. -/
def AosLayout.len {S : Schema} (c : AosLayout S) : Nat := c.data.length

/-- Aos `is_empty()`: `self.len() == 0`. -/
def AosLayout.is_empty {S : Schema} (c : AosLayout S) : Bool := c.len == 0

/-- Aos `add(item)`: the id is `self.data.len() as u32`; the whole record is
pushed; the id is returned. -/
def AosLayout.add {S : Schema} (c : AosLayout S) (item : S.Record) :
    Nat × AosLayout S :=
  (u32cast c.data.length, ⟨c.data ++ [item]⟩)

/-- Aos `field_f()`: `self.data.iter().map(|item| &item.f)`. -/
def AosLayout.field {S : Schema} (c : AosLayout S) (f : Fin S.N) : List (S.Ty f) :=
  c.data.map (fun r => r f)

/-- Aos `get_f(index)`: `self.data.get(index.0 as usize).map(|item|
&item.f).ok_or_else(NotFound_f)`. -/
def AosLayout.get {S : Schema} (c : AosLayout S) (f : Fin S.N) (id : Nat) :
    Except (XsError S) (S.Ty f) :=
  match c.data[id]? with
  | some r => .ok (r f)
  | none => .error (.NotFound f)

/-- Aos `get_f_enumerated()`: the record vector enumerated and projected to
field `f`, each index narrowed `as u32`. -/
def AosLayout.get_enumerated {S : Schema} (c : AosLayout S) (f : Fin S.N) :
    List (Nat × S.Ty f) :=
  c.data.enum.map (fun p => (u32cast p.1, p.2 f))

/-- Aos `get_f_mut(index)` followed by overwriting the returned reference
with `v` on success: field `f` of the record at `index` becomes `v`; out of
bounds, `NotFound_f` is returned and the container is untouched. -/
def AosLayout.get_mut_set {S : Schema} (c : AosLayout S) (f : Fin S.N)
    (id : Nat) (v : S.Ty f) : Except (XsError S) Unit × AosLayout S :=
  if h : id < c.data.length then
    (.ok ⟨⟩, ⟨c.data.set id (Function.update (c.data.get ⟨id, h⟩) f v)⟩)
  else
    (.error (.NotFound f), c)

/-- Assembly of one `XRef` at index `idx`, as the shared iterator's `next`
does it: call every per-field getter `get_f(idx)` and build the record of
the returned references, propagating the first failure (`.ok()?`).  All
getters succeed exactly when `idx` is in bounds for every field vector.
Soa version. -/
def SoaLayout.getRecord {S : Schema} (c : SoaLayout S) (idx : Nat) :
    Option S.Record :=
  if h : ∀ i, idx < (c.cols i).length then
    some (fun i => (c.cols i).get ⟨idx, h i⟩)
  else
    none

/-- Assembly of one `XRef` at index `idx` by the shared iterator, Aos
version: every `get_f(idx)` succeeds exactly when `idx < data.len()`, and
the assembled record is field-wise the stored record. -/
def AosLayout.getRecord {S : Schema} (c : AosLayout S) (idx : Nat) :
    Option S.Record :=
  if h : idx < c.data.length then
    some (fun i => (c.data.get ⟨idx, h⟩) i)
  else
    none

/-- One step of the shared iterator `XsIter::next`, generic in the
underlying layout's record assembly `getR`: assemble the `XRef` at the
current index; on success advance the `u32` index by one (wrapping). -/
def iterNext {R : Type} (getR : Nat → Option R) (idx : Nat) :
    Option (R × Nat) :=
  (getR idx).map (fun r => (r, u32cast (idx + 1)))

/-- The list of items produced by running the shared iterator starting at
index `idx` for at most `fuel` steps (the Rust iterator is demand-driven;
`fuel` bounds how many times `next` is called). -/
def iterFrom {R : Type} (getR : Nat → Option R) : Nat → Nat → List R
  | _, 0 => []
  | idx, fuel + 1 =>
    match iterNext getR idx with
    | none => []
    | some (r, idx2) => r :: iterFrom getR idx2 fuel

/-- Soa `iter()`: the shared iterator starting at `XId::null()` (index 0). -/
def SoaLayout.iterList {S : Schema} (c : SoaLayout S) (fuel : Nat) :
    List S.Record :=
  iterFrom c.getRecord 0 fuel

/-- Aos `iter()`: the shared iterator starting at index 0. -/
def AosLayout.iterList {S : Schema} (c : AosLayout S) (fuel : Nat) :
    List S.Record :=
  iterFrom c.getRecord 0 fuel

/-- Soa `iter_enumerated()`: `self.iter().enumerate().map(|(index, item)|
(XId(index as u32), item))`. -/
def SoaLayout.iterEnumList {S : Schema} (c : SoaLayout S) (fuel : Nat) :
    List (Nat × S.Record) :=
  (c.iterList fuel).enum.map (fun p => (u32cast p.1, p.2))

/-- Aos `iter_enumerated()`. -/
def AosLayout.iterEnumList {S : Schema} (c : AosLayout S) (fuel : Nat) :
    List (Nat × S.Record) :=
  (c.iterList fuel).enum.map (fun p => (u32cast p.1, p.2))

/-- Sequential concatenation of the report fragments `diff` writes into its
`out` accumulator, in order. -/
def strCat : List String → String
  | [] => ""
  | s :: rest => s ++ strCat rest

/-- One report line of `diff`: `write!(out, "\n{} {i}: {o1:?} vs {o2:?}",
stringify!(field_name))`. -/
def entryLine (fname : String) (i : Nat) (s1 s2 : String) : String :=
  "\n" ++ fname ++ " " ++ toString i ++ ": " ++ s1 ++ " vs " ++ s2

/-- The fragment `diff` appends while zipping one field's two value
sequences: positions are enumerated, equal pairs contribute nothing, and
each unequal pair contributes one `entryLine`. -/
def fieldDiffStr (S : Schema) (i : Fin S.N) (xs ys : List (S.Ty i)) : String :=
  strCat ((xs.zip ys).enum.map (fun p =>
    if p.2.1 = p.2.2 then "" else
      entryLine (S.fname i) p.1 (S.fmt i p.2.1) (S.fmt i p.2.2)))

/-- The whole `out` string `diff` accumulates: one `fieldDiffStr` per field,
in schema declaration order. -/
def diffOut (S : Schema) (fx fy : ∀ i : Fin S.N, List (S.Ty i)) : String :=
  strCat ((List.finRange S.N).map (fun i => fieldDiffStr S i (fx i) (fy i)))

/-- Soa `diff(other)`: build `out` from the two containers' `field_f()`
iterators; return `Some(out)` when non-empty, `None` otherwise. -/
def SoaLayout.diff {S : Schema} (x y : SoaLayout S) : Option String :=
  if diffOut S x.field y.field = "" then none
  else some (diffOut S x.field y.field)

/-- Aos `diff(other)`. -/
def AosLayout.diff {S : Schema} (x y : AosLayout S) : Option String :=
  if diffOut S x.field y.field = "" then none
  else some (diffOut S x.field y.field)

/-- Positions (with both values) at which the zipped value sequences of one
field disagree; used to state properties of `diff`'s report. -/
def fieldDiffPositions (S : Schema) (i : Fin S.N) (xs ys : List (S.Ty i)) :
    List (Nat × S.Ty i × S.Ty i) :=
  (xs.zip ys).enum.filter (fun p => decide (p.2.1 ≠ p.2.2))

/-- Folding a whole insertion sequence into a Soa container with `add`. -/
def SoaLayout.addAll {S : Schema} (c : SoaLayout S) (rs : List S.Record) :
    SoaLayout S :=
  rs.foldl (fun c r => (c.add r).2) c

/-- Folding a whole insertion sequence into an Aos container with `add`. -/
def AosLayout.addAll {S : Schema} (c : AosLayout S) (rs : List S.Record) :
    AosLayout S :=
  rs.foldl (fun c r => (c.add r).2) c

/-- Soa container states reachable from `new()` or `with_capacity(n)` by the
generated mutating operations (`add`, and writing through `get_f_mut`); the
remaining generated operations take `&self` and cannot change the state. -/
inductive SoaLayout.Reachable (S : Schema) : SoaLayout S → Prop where
  | new : SoaLayout.Reachable S (SoaLayout.new S)
  | with_capacity (n : Nat) : SoaLayout.Reachable S (SoaLayout.with_capacity S n)
  | add (c : SoaLayout S) (r : S.Record) :
      SoaLayout.Reachable S c → SoaLayout.Reachable S (c.add r).2
  | mutate (c : SoaLayout S) (f : Fin S.N) (id : Nat) (v : S.Ty f) :
      SoaLayout.Reachable S c → SoaLayout.Reachable S (c.get_mut_set f id v).2

/-- A concrete one-field schema (a struct with a single `Nat`-typed field
named `val`), used to instantiate the generic theorems on explicit data. -/
def natSchema : Schema where
  N := 1
  npos := Nat.one_pos
  Ty := fun _ => Nat
  deq := fun _ => inferInstance
  fname := fun _ => "val"
  fmt := fun _ v => toString v

/-- A concrete record of `natSchema` holding the value `n`. -/
def natRec (n : Nat) : natSchema.Record := fun _ => n

theorem SoaLayout.addAll_cols {S : Schema} (rs : List S.Record) :
    ∀ (c : SoaLayout S) (i : Fin S.N),
      ((c.addAll rs).cols i) = c.cols i ++ rs.map (fun r => r i) := by
  induction rs with
  | nil => intro c i; simp [SoaLayout.addAll]
  | cons r rs ih =>
    intro c i
    simp only [SoaLayout.addAll, List.foldl_cons, List.map_cons]
    have := ih ((c.add r).2) i
    simp only [SoaLayout.addAll] at this
    rw [this]
    simp [SoaLayout.add, List.append_assoc]

theorem AosLayout.addAll_data {S : Schema} (rs : List S.Record) :
    ∀ (c : AosLayout S), ((c.addAll rs).data) = c.data ++ rs := by
  induction rs with
  | nil => intro c; simp [AosLayout.addAll]
  | cons r rs ih =>
    intro c
    simp only [AosLayout.addAll, List.foldl_cons]
    have := ih ((c.add r).2)
    simp only [AosLayout.addAll] at this
    rw [this]
    simp [AosLayout.add]

theorem SoaLayout.addAll_new_cols {S : Schema} (rs : List S.Record) (i : Fin S.N) :
    (((SoaLayout.new S).addAll rs).cols i) = rs.map (fun r => r i) := by
  rw [SoaLayout.addAll_cols]
  simp [SoaLayout.new]

theorem AosLayout.addAll_new_data {S : Schema} (rs : List S.Record) :
    (((AosLayout.new S).addAll rs).data) = rs := by
  rw [AosLayout.addAll_data]
  simp [AosLayout.new]

theorem SoaLayout.len_addAll_new {S : Schema} (rs : List S.Record) :
    ((SoaLayout.new S).addAll rs).len = rs.length := by
  simp [SoaLayout.len, SoaLayout.addAll_new_cols]

theorem AosLayout.len_addAll_new_aos {S : Schema} (rs : List S.Record) :
    ((AosLayout.new S).addAll rs).len = rs.length := by
  simp [AosLayout.len, AosLayout.addAll_new_data]

theorem SoaLayout.get_addAll_new {S : Schema} (rs : List S.Record)
    (f : Fin S.N) (i : Nat) :
    ((SoaLayout.new S).addAll rs).get f i =
      match rs[i]? with
      | some r => .ok (r f)
      | none => .error (.NotFound f) := by
  simp only [SoaLayout.get, SoaLayout.addAll_new_cols, List.getElem?_map]
  cases rs[i]? <;> rfl

theorem AosLayout.get_addAll_new_aos {S : Schema} (rs : List S.Record)
    (f : Fin S.N) (i : Nat) :
    ((AosLayout.new S).addAll rs).get f i =
      match rs[i]? with
      | some r => .ok (r f)
      | none => .error (.NotFound f) := by
  simp only [AosLayout.get, AosLayout.addAll_new_data]

theorem strAppend_eq_empty {a b : String} : a ++ b = "" ↔ a = "" ∧ b = "" := by
  simp [String.ext_iff, String.data_append]

theorem strCat_eq_empty_iff : ∀ l : List String, strCat l = "" ↔ ∀ s ∈ l, s = ""
  | [] => by simp [strCat]
  | s :: rest => by
    simp [strCat, strAppend_eq_empty, strCat_eq_empty_iff rest]

theorem entryLine_ne_empty (fn : String) (i : Nat) (s1 s2 : String) :
    entryLine fn i s1 s2 ≠ "" := by
  intro h
  have hl := congrArg String.length h
  have h1 : ("\n" : String).length = 1 := rfl
  have h0 : ("" : String).length = 0 := rfl
  simp only [entryLine, String.length_append, h1, h0] at hl
  omega

theorem strCat_map_single {α : Type} (F : α → String) (a0 : α) :
    ∀ l : List α, l.Nodup → a0 ∈ l → (∀ x ∈ l, x ≠ a0 → F x = "") →
      strCat (l.map F) = F a0
  | [], _, hmem, _ => absurd hmem (List.not_mem_nil a0)
  | x :: rest, hnd, hmem, hother => by
    simp only [List.map_cons, strCat]
    rcases List.mem_cons.mp hmem with rfl | hmem2
    · have : strCat (rest.map F) = "" := by
        rw [strCat_eq_empty_iff]
        intro s hs
        obtain ⟨y, hy, rfl⟩ := List.mem_map.mp hs
        exact hother y (List.mem_cons_of_mem _ hy)
          (fun hya => (List.nodup_cons.mp hnd).1 (hya ▸ hy))
      rw [this, String.append_empty]
    · have hx : F x = "" := hother x (List.mem_cons_self x rest)
        (fun hxa => (List.nodup_cons.mp hnd).1 (hxa ▸ hmem2))
      rw [hx, String.empty_append]
      exact strCat_map_single F a0 rest (List.nodup_cons.mp hnd).2 hmem2
        (fun y hy => hother y (List.mem_cons_of_mem _ hy))

theorem strCat_map_ite {α : Type} (p : α → Prop) [DecidablePred p]
    (g : α → String) :
    ∀ l : List α,
      strCat (l.map (fun x => if p x then "" else g x)) =
        strCat ((l.filter (fun x => decide ¬ p x)).map g)
  | [] => rfl
  | x :: rest => by
    simp only [List.map_cons, strCat, List.filter_cons]
    by_cases hx : p x
    · rw [if_pos hx, if_neg (by simp [hx]), String.empty_append,
        strCat_map_ite p g rest]
    · rw [if_neg hx, if_pos (by simp [hx]), List.map_cons, strCat,
        strCat_map_ite p g rest]

theorem fieldDiffStr_eq_strCat {S : Schema} (i : Fin S.N)
    (xs ys : List (S.Ty i)) :
    fieldDiffStr S i xs ys =
      strCat ((fieldDiffPositions S i xs ys).map (fun p =>
        entryLine (S.fname i) p.1 (S.fmt i p.2.1) (S.fmt i p.2.2))) := by
  unfold fieldDiffStr fieldDiffPositions
  exact strCat_map_ite (fun p : Nat × S.Ty i × S.Ty i => p.2.1 = p.2.2) _ _

theorem fieldDiffStr_eq_empty_iff {S : Schema} (i : Fin S.N)
    (xs ys : List (S.Ty i)) :
    fieldDiffStr S i xs ys = "" ↔ fieldDiffPositions S i xs ys = [] := by
  rw [fieldDiffStr_eq_strCat]
  constructor
  · intro h
    cases hpos : fieldDiffPositions S i xs ys with
    | nil => rfl
    | cons p rest =>
      rw [hpos, List.map_cons] at h
      exact absurd ((strCat_eq_empty_iff _).mp h _ (List.mem_cons_self _ _))
        (entryLine_ne_empty _ _ _ _)
  · intro h
    rw [h]
    rfl

theorem diffOut_eq_empty_iff {S : Schema} (fx fy : ∀ i : Fin S.N, List (S.Ty i)) :
    diffOut S fx fy = "" ↔ ∀ i, fieldDiffPositions S i (fx i) (fy i) = [] := by
  unfold diffOut
  rw [strCat_eq_empty_iff]
  constructor
  · intro h i
    exact (fieldDiffStr_eq_empty_iff i _ _).mp
      (h _ (List.mem_map.mpr ⟨i, List.mem_finRange i, rfl⟩))
  · intro h s hs
    obtain ⟨i, _, rfl⟩ := List.mem_map.mp hs
    exact (fieldDiffStr_eq_empty_iff i _ _).mpr (h i)

theorem diffOut_single {S : Schema} (fx fy : ∀ i : Fin S.N, List (S.Ty i))
    (f0 : Fin S.N) (j0 : Nat) (a b : S.Ty f0)
    (hf0 : fieldDiffPositions S f0 (fx f0) (fy f0) = [(j0, a, b)])
    (hrest : ∀ f, f ≠ f0 → fieldDiffPositions S f (fx f) (fy f) = []) :
    diffOut S fx fy = entryLine (S.fname f0) j0 (S.fmt f0 a) (S.fmt f0 b) := by
  unfold diffOut
  rw [strCat_map_single (fun i => fieldDiffStr S i (fx i) (fy i)) f0
    (List.finRange S.N) (List.nodup_finRange S.N) (List.mem_finRange f0)
    (fun i _ hi => (fieldDiffStr_eq_empty_iff i _ _).mpr (hrest i hi))]
  rw [fieldDiffStr_eq_strCat, hf0]
  simp only [List.map_cons, List.map_nil, strCat]
  exact String.append_empty _

theorem SoaLayout.diff_eq_none_iff {S : Schema} (x y : SoaLayout S) :
    x.diff y = none ↔ diffOut S x.field y.field = "" := by
  unfold SoaLayout.diff
  by_cases h : diffOut S x.field y.field = "" <;> simp [h]

theorem AosLayout.diff_eq_none_iff_aos {S : Schema} (x y : AosLayout S) :
    x.diff y = none ↔ diffOut S x.field y.field = "" := by
  unfold AosLayout.diff
  by_cases h : diffOut S x.field y.field = "" <;> simp [h]

theorem zip_self_mem {α : Type} : ∀ {l : List α} {p : α × α}, p ∈ l.zip l → p.1 = p.2
  | [], _, h => absurd h (List.not_mem_nil _)
  | x :: rest, p, h => by
    rcases List.mem_cons.mp h with rfl | h2
    · rfl
    · exact zip_self_mem h2

theorem fieldDiffPositions_self {S : Schema} (i : Fin S.N) (xs : List (S.Ty i)) :
    fieldDiffPositions S i xs xs = [] := by
  unfold fieldDiffPositions
  rw [List.filter_eq_nil_iff]
  intro p hp
  have : p.2 ∈ xs.zip xs := by
    have := (List.mem_enum_iff_getElem?).mp hp
    exact List.getElem?_mem this
  simp [zip_self_mem this]

theorem SoaLayout.getRecord_some_get {S : Schema} (c : SoaLayout S) (idx : Nat)
    (r : S.Record) (h : c.getRecord idx = some r) (f : Fin S.N) :
    c.get f idx = .ok (r f) := by
  unfold SoaLayout.getRecord at h
  by_cases hall : ∀ i, idx < (c.cols i).length
  · rw [dif_pos hall] at h
    injection h with h
    unfold SoaLayout.get
    rw [List.getElem?_eq_getElem (hall f)]
    rw [← h]
    simp [List.get_eq_getElem]
  · rw [dif_neg hall] at h
    exact absurd h (by simp)

theorem AosLayout.getRecord_some_get_aos {S : Schema} (c : AosLayout S) (idx : Nat)
    (r : S.Record) (h : c.getRecord idx = some r) (f : Fin S.N) :
    c.get f idx = .ok (r f) := by
  unfold AosLayout.getRecord at h
  by_cases hlt : idx < c.data.length
  · rw [dif_pos hlt] at h
    injection h with h
    unfold AosLayout.get
    rw [List.getElem?_eq_getElem hlt]
    rw [← h]
    simp [List.get_eq_getElem]
  · rw [dif_neg hlt] at h
    exact absurd h (by simp)

theorem SoaLayout.getRecord_addAll_new {S : Schema} (rs : List S.Record)
    (idx : Nat) : ((SoaLayout.new S).addAll rs).getRecord idx = rs[idx]? := by
  unfold SoaLayout.getRecord
  by_cases h : idx < rs.length
  · have hall : ∀ i, idx < (((SoaLayout.new S).addAll rs).cols i).length := by
      intro i
      rw [SoaLayout.addAll_new_cols]
      simpa using h
    rw [dif_pos hall, List.getElem?_eq_getElem h]
    congr 1
    funext i
    have hc := SoaLayout.addAll_new_cols rs i
    simp only [List.get_eq_getElem]
    rw [List.getElem_of_eq hc (hall i)]
    simp
  · have : ¬ ∀ i, idx < (((SoaLayout.new S).addAll rs).cols i).length := by
      intro hall
      have := hall S.first
      rw [SoaLayout.addAll_new_cols] at this
      simp at this
      omega
    rw [dif_neg this, List.getElem?_eq_none (Nat.le_of_not_lt h)]

theorem AosLayout.getRecord_addAll_new_aos {S : Schema} (rs : List S.Record)
    (idx : Nat) : ((AosLayout.new S).addAll rs).getRecord idx = rs[idx]? := by
  unfold AosLayout.getRecord
  by_cases h : idx < rs.length
  · have hlt : idx < ((AosLayout.new S).addAll rs).data.length := by
      rw [AosLayout.addAll_new_data]; exact h
    rw [dif_pos hlt, List.getElem?_eq_getElem h]
    congr 1
    funext i
    simp only [List.get_eq_getElem]
    rw [List.getElem_of_eq (AosLayout.addAll_new_data rs) hlt]
  · have hge : ¬ idx < ((AosLayout.new S).addAll rs).data.length := by
      rw [AosLayout.addAll_new_data]; exact h
    rw [dif_neg hge, List.getElem?_eq_none (Nat.le_of_not_lt h)]

theorem iterFrom_getElem? {R : Type} (getR : Nat → Option R) (n : Nat)
    (hn : n < 4294967296)
    (hsome : ∀ idx, idx < n → (getR idx).isSome)
    (hnone : ∀ idx, n ≤ idx → getR idx = none) :
    ∀ (fuel idx : Nat), idx ≤ n → n ≤ idx + fuel →
      ∀ j : Nat, (iterFrom getR idx fuel)[j]? = getR (idx + j) := by
  intro fuel
  induction fuel with
  | zero =>
    intro idx hle hge j
    simp [iterFrom, hnone (idx + j) (by omega)]
  | succ fuel ih =>
    intro idx hle hge j
    by_cases hidx : idx < n
    · obtain ⟨r, hr⟩ := Option.isSome_iff_exists.mp (hsome idx hidx)
      have hcast : u32cast (idx + 1) = idx + 1 := Nat.mod_eq_of_lt (by omega)
      simp only [iterFrom, iterNext, hr, Option.map_some', hcast]
      cases j with
      | zero => simp [hr]
      | succ j =>
        simp only [List.getElem?_cons_succ]
        rw [ih (idx + 1) (by omega) (by omega) j]
        congr 1
        omega
    · simp [iterFrom, iterNext, hnone idx (by omega), hnone (idx + j) (by omega)]

theorem iterFrom_length {R : Type} (getR : Nat → Option R) (n : Nat)
    (hn : n < 4294967296)
    (hsome : ∀ idx, idx < n → (getR idx).isSome)
    (hnone : ∀ idx, n ≤ idx → getR idx = none) :
    ∀ (fuel idx : Nat), idx ≤ n → n ≤ idx + fuel →
      (iterFrom getR idx fuel).length = n - idx := by
  intro fuel
  induction fuel with
  | zero =>
    intro idx hle hge
    simp only [iterFrom, List.length_nil]
    omega
  | succ fuel ih =>
    intro idx hle hge
    by_cases hidx : idx < n
    · obtain ⟨r, hr⟩ := Option.isSome_iff_exists.mp (hsome idx hidx)
      have hcast : u32cast (idx + 1) = idx + 1 := Nat.mod_eq_of_lt (by omega)
      simp only [iterFrom, iterNext, hr, Option.map_some', hcast, List.length_cons]
      rw [ih (idx + 1) (by omega) (by omega)]
      omega
    · simp only [iterFrom, iterNext, hnone idx (by omega), Option.map_none',
        List.length_nil]
      omega

theorem iterFrom_length_total {R : Type} (getR : Nat → Option R)
    (htotal : ∀ idx, idx < 4294967296 → (getR idx).isSome) :
    ∀ (fuel idx : Nat), idx < 4294967296 →
      (iterFrom getR idx fuel).length = fuel := by
  intro fuel
  induction fuel with
  | zero => intro idx _; rfl
  | succ fuel ih =>
    intro idx hidx
    obtain ⟨r, hr⟩ := Option.isSome_iff_exists.mp (htotal idx hidx)
    simp only [iterFrom, iterNext, hr, Option.map_some', List.length_cons]
    rw [ih (u32cast (idx + 1)) (Nat.mod_lt _ (by omega))]

theorem enumIds_map_fst {R : Type} (l : List R) (h : l.length < 4294967296) :
    (l.enum.map (fun p => (u32cast p.1, p.2))).map Prod.fst = List.range l.length := by
  rw [List.map_map]
  have h1 : (Prod.fst ∘ fun p : Nat × R => (u32cast p.1, p.2)) =
      (u32cast ∘ Prod.fst) := rfl
  rw [h1, ← List.map_map, List.enum_map_fst]
  have h2 : ∀ a ∈ List.range l.length, u32cast a = id a := by
    intro a ha
    exact Nat.mod_eq_of_lt (lt_trans (List.mem_range.mp ha) h)
  rw [List.map_congr_left h2, List.map_id]

theorem update_set_length {S : Schema} (c : SoaLayout S) (f : Fin S.N)
    (id : Nat) (v : S.Ty f) (j : Fin S.N) :
    ((Function.update c.cols f ((c.cols f).set id v)) j).length =
      (c.cols j).length := by
  by_cases hj : j = f
  · subst hj
    rw [Function.update_same]
    exact List.length_set _ _ _
  · rw [Function.update_noteq hj]

theorem SoaLayout.getRecord_isSome {S : Schema} (c : SoaLayout S) (n : Nat)
    (hwf : ∀ i, (c.cols i).length = n) :
    ∀ idx, idx < n → (c.getRecord idx).isSome := by
  intro idx h
  unfold SoaLayout.getRecord
  rw [dif_pos (fun i => by rw [hwf i]; exact h)]
  rfl

theorem SoaLayout.getRecord_none {S : Schema} (c : SoaLayout S) (n : Nat)
    (hwf : ∀ i, (c.cols i).length = n) :
    ∀ idx, n ≤ idx → c.getRecord idx = none := by
  intro idx h
  unfold SoaLayout.getRecord
  rw [dif_neg]
  intro hall
  have := hall S.first
  rw [hwf S.first] at this
  omega

theorem AosLayout.getRecord_isSome_aos {S : Schema} (c : AosLayout S) :
    ∀ idx, idx < c.data.length → (c.getRecord idx).isSome := by
  intro idx h
  unfold AosLayout.getRecord
  rw [dif_pos h]
  rfl

theorem AosLayout.getRecord_none_aos {S : Schema} (c : AosLayout S) :
    ∀ idx, c.data.length ≤ idx → c.getRecord idx = none := by
  intro idx h
  unfold AosLayout.getRecord
  rw [dif_neg]
  omega

theorem SoaLayout.add_fst {S : Schema} (c : SoaLayout S) (r : S.Record) :
    (c.add r).1 = u32cast c.len := rfl

theorem AosLayout.add_fst_aos {S : Schema} (c : AosLayout S) (r : S.Record) :
    (c.add r).1 = u32cast c.len := rfl

/-- C1: Cross-strategy equivalence.  For every schema and every identical
sequence of record insertions into a fresh Columnar (Soa) container and a
fresh Row-Major (Aos) container: every `field_f()` collected yields equal
value sequences; every `get_f(id)` returns the same result (same value on
success, failure with the same error on the same ids); and
`iter_enumerated()` yields pairwise-equal (id, record-view) sequences, for
any number of iterator steps. -/
theorem c1_cross_strategy_equivalence (S : Schema) (rs : List S.Record) :
    (∀ f : Fin S.N,
      ((SoaLayout.new S).addAll rs).field f = ((AosLayout.new S).addAll rs).field f)
    ∧ (∀ (f : Fin S.N) (id : Nat),
      ((SoaLayout.new S).addAll rs).get f id = ((AosLayout.new S).addAll rs).get f id)
    ∧ (∀ fuel : Nat,
      ((SoaLayout.new S).addAll rs).iterEnumList fuel =
        ((AosLayout.new S).addAll rs).iterEnumList fuel) := by
  refine ⟨?_, ?_, ?_⟩
  · intro f
    rw [SoaLayout.field, SoaLayout.addAll_new_cols, AosLayout.field,
      AosLayout.addAll_new_data]
  · intro f id
    rw [SoaLayout.get_addAll_new, AosLayout.get_addAll_new_aos]
  · intro fuel
    unfold SoaLayout.iterEnumList AosLayout.iterEnumList SoaLayout.iterList
      AosLayout.iterList
    have h : ((SoaLayout.new S).addAll rs).getRecord =
        ((AosLayout.new S).addAll rs).getRecord := by
      funext idx
      rw [SoaLayout.getRecord_addAll_new, AosLayout.getRecord_addAll_new_aos]
    rw [h]

/-- C2: Insertion identity with matching error variant.  After inserting the
records `rs` into a fresh container of either strategy, `get_f(Id(i))`
returns `rs[i].f` for every `i < rs.length`, and fails with exactly field
`f`'s `NotFound_f` variant for every `i ≥ rs.length`. -/
theorem c2_insertion_identity (S : Schema) (rs : List S.Record) (f : Fin S.N)
    (i : Nat) :
    (∀ h : i < rs.length,
      ((SoaLayout.new S).addAll rs).get f i = .ok (rs.get ⟨i, h⟩ f)
      ∧ ((AosLayout.new S).addAll rs).get f i = .ok (rs.get ⟨i, h⟩ f))
    ∧ (rs.length ≤ i →
      ((SoaLayout.new S).addAll rs).get f i = .error (.NotFound f)
      ∧ ((AosLayout.new S).addAll rs).get f i = .error (.NotFound f)) := by
  constructor
  · intro h
    rw [SoaLayout.get_addAll_new, AosLayout.get_addAll_new_aos,
      List.getElem?_eq_getElem h]
    simp [List.get_eq_getElem]
  · intro h
    rw [SoaLayout.get_addAll_new, AosLayout.get_addAll_new_aos,
      List.getElem?_eq_none h]
    exact ⟨rfl, rfl⟩

/-- Witness for C2 at a concrete schema and insertion sequence: in-bounds
lookup returns the inserted field value, out-of-bounds lookup fails with
the matching not-found variant, on both strategies. -/
theorem c2_insertion_identity_witness :
    (((SoaLayout.new natSchema).addAll [natRec 7, natRec 8]).get
        ⟨0, Nat.one_pos⟩ 1 = .ok (natRec 8 ⟨0, Nat.one_pos⟩))
    ∧ (((AosLayout.new natSchema).addAll [natRec 7, natRec 8]).get
        ⟨0, Nat.one_pos⟩ 2 = .error (.NotFound ⟨0, Nat.one_pos⟩)) := by
  constructor
  · exact ((c2_insertion_identity natSchema [natRec 7, natRec 8]
      ⟨0, Nat.one_pos⟩ 1).1 (by decide)).1
  · exact ((c2_insertion_identity natSchema [natRec 7, natRec 8]
      ⟨0, Nat.one_pos⟩ 2).2 (by decide)).2

/-- C3 (amended): Id assignment.  `add` is total and returns the container
length just before the insertion narrowed `as u32`, i.e. reduced mod 2^32;
whenever that length is below 2^32 (every practical container) the returned
id is exactly the length before the insertion, so the k-th insertion from a
fresh container receives id k for all k < 2^32.  The unamended claim fails
at the 2^32-th insertion, whose id wraps to 0 (see the counterexample). -/
theorem c3_id_assignment (S : Schema) :
    (∀ (c : SoaLayout S) (r : S.Record),
      (c.add r).1 = c.len % 4294967296
      ∧ (c.len < 4294967296 → (c.add r).1 = c.len))
    ∧ (∀ (c : AosLayout S) (r : S.Record),
      (c.add r).1 = c.len % 4294967296
      ∧ (c.len < 4294967296 → (c.add r).1 = c.len)) := by
  constructor
  · intro c r
    exact ⟨rfl, fun h => Nat.mod_eq_of_lt h⟩
  · intro c r
    exact ⟨rfl, fun h => Nat.mod_eq_of_lt h⟩

/-- Witness for C3 at a concrete container: the first insertion into a fresh
container (of either strategy) returns id 0, the container length before
the insertion. -/
theorem c3_id_assignment_witness :
    ((SoaLayout.new natSchema).add (natRec 3)).1 = (SoaLayout.new natSchema).len
    ∧ ((AosLayout.new natSchema).add (natRec 3)).1 = (AosLayout.new natSchema).len := by
  constructor
  · exact ((c3_id_assignment natSchema).1 (SoaLayout.new natSchema)
      (natRec 3)).2 (by decide)
  · exact ((c3_id_assignment natSchema).2 (AosLayout.new natSchema)
      (natRec 3)).2 (by decide)

/-- Counterexample to C3 as stated: after 2^32 insertions into a fresh
Columnar container, the next insertion's returned id is not the container
length just before the insertion (it is 0, a reused id, because the length
is narrowed `as u32`). -/
theorem c3_id_assignment_counterexample :
    (((SoaLayout.new natSchema).addAll
        (List.replicate 4294967296 (natRec 0))).add (natRec 1)).1
      ≠ ((SoaLayout.new natSchema).addAll
        (List.replicate 4294967296 (natRec 0))).len := by
  have hlen : ((SoaLayout.new natSchema).addAll
      (List.replicate 4294967296 (natRec 0))).len = 4294967296 := by
    rw [SoaLayout.len_addAll_new, List.length_replicate]
  rw [SoaLayout.add_fst, hlen]
  norm_num [u32cast]

/-- C4: Length consistency.  After inserting `rs` into a fresh container of
either strategy, `len()` returns `rs.length` and `is_empty()` returns true
exactly when no record was inserted; for the Columnar strategy `len()` is
the length of the first field's vector. -/
theorem c4_length_consistency (S : Schema) (rs : List S.Record) :
    ((SoaLayout.new S).addAll rs).len = rs.length
    ∧ (((SoaLayout.new S).addAll rs).is_empty = true ↔ rs.length = 0)
    ∧ ((AosLayout.new S).addAll rs).len = rs.length
    ∧ (((AosLayout.new S).addAll rs).is_empty = true ↔ rs.length = 0)
    ∧ (∀ c : SoaLayout S, c.len = (c.cols S.first).length) := by
  refine ⟨SoaLayout.len_addAll_new rs, ?_, AosLayout.len_addAll_new_aos rs, ?_,
    fun c => rfl⟩
  · simp [SoaLayout.is_empty, SoaLayout.len_addAll_new]
  · simp [AosLayout.is_empty, AosLayout.len_addAll_new_aos]

/-- C5: Columnar equal-length invariant.  Every Columnar container reachable
from `new()` or `with_capacity(n)` by the generated mutating operations
(`add`, writing through `get_f_mut`; the remaining operations take `&self`
and leave the state unchanged) has all its field vectors of one common
length, namely `len()`. -/
theorem c5_columnar_invariant (S : Schema) (c : SoaLayout S)
    (h : SoaLayout.Reachable S c) : ∀ i : Fin S.N, (c.cols i).length = c.len := by
  induction h with
  | new => intro i; rfl
  | with_capacity n => intro i; rfl
  | add c r hr ih =>
    intro i
    show ((fun i => c.cols i ++ [r i]) i).length = ((c.add r).2.cols S.first).length
    simp only [SoaLayout.add, List.length_append, List.length_cons,
      List.length_nil]
    rw [ih i]
    rfl
  | mutate c f id v hr ih =>
    intro i
    by_cases hid : id < (c.cols f).length
    · simp only [SoaLayout.get_mut_set, if_pos hid]
      show ((Function.update c.cols f ((c.cols f).set id v)) i).length =
        ((Function.update c.cols f ((c.cols f).set id v)) S.first).length
      rw [update_set_length, update_set_length, ih i]
      rfl
    · simp only [SoaLayout.get_mut_set, if_neg hid]
      exact ih i

/-- Witness for C5: a concrete reachable state (one insertion followed by
one in-bounds mutation) whose field vector length equals its length. -/
theorem c5_columnar_invariant_witness :
    SoaLayout.Reachable natSchema
      ((((SoaLayout.new natSchema).add (natRec 4)).2.get_mut_set
        ⟨0, Nat.one_pos⟩ 0 (natRec 9 ⟨0, Nat.one_pos⟩)).2)
    ∧ (((((SoaLayout.new natSchema).add (natRec 4)).2.get_mut_set
        ⟨0, Nat.one_pos⟩ 0 (natRec 9 ⟨0, Nat.one_pos⟩)).2.cols
          ⟨0, Nat.one_pos⟩).length =
      ((((SoaLayout.new natSchema).add (natRec 4)).2.get_mut_set
        ⟨0, Nat.one_pos⟩ 0 (natRec 9 ⟨0, Nat.one_pos⟩)).2).len) := by
  refine ⟨?_, ?_⟩
  · exact SoaLayout.Reachable.mutate (((SoaLayout.new natSchema).add
      (natRec 4)).2) ⟨0, Nat.one_pos⟩ 0 (natRec 9 ⟨0, Nat.one_pos⟩)
      (SoaLayout.Reachable.add (SoaLayout.new natSchema) (natRec 4)
        SoaLayout.Reachable.new)
  · exact c5_columnar_invariant natSchema _
      (SoaLayout.Reachable.mutate (((SoaLayout.new natSchema).add
        (natRec 4)).2) ⟨0, Nat.one_pos⟩ 0 (natRec 9 ⟨0, Nat.one_pos⟩)
        (SoaLayout.Reachable.add (SoaLayout.new natSchema) (natRec 4)
          SoaLayout.Reachable.new)) ⟨0, Nat.one_pos⟩

/-- C6 (amended): Iteration order and termination, for containers holding
`n < 2^32` records (the unamended claim fails at `n = 2^32`, where the
iterator's 32-bit index wraps and iteration does not terminate at
`length()`; see the counterexample).  For either strategy: running the
iterator for any `fuel ≥ n` steps yields exactly `n` record views, the j-th
yielded view is the one assembled from the per-field getters at id j (and
assembly agrees with every `get_f`), and `iter_enumerated()` pairs them
with ids 0, 1, ..., n-1 in strictly increasing order with no gaps or
repeats. -/
theorem c6_iteration_order (S : Schema) :
    (∀ (c : SoaLayout S) (n fuel : Nat), (∀ i, (c.cols i).length = n) →
      n < 4294967296 → n ≤ fuel →
      ((c.iterList fuel).length = n
      ∧ (∀ j : Nat, (c.iterList fuel)[j]? = c.getRecord j)
      ∧ (∀ (j : Nat) (r : S.Record), c.getRecord j = some r →
          ∀ f, c.get f j = .ok (r f))
      ∧ (c.iterEnumList fuel).map Prod.fst = List.range n))
    ∧ (∀ (c : AosLayout S) (fuel : Nat),
      c.data.length < 4294967296 → c.data.length ≤ fuel →
      ((c.iterList fuel).length = c.data.length
      ∧ (∀ j : Nat, (c.iterList fuel)[j]? = c.getRecord j)
      ∧ (∀ (j : Nat) (r : S.Record), c.getRecord j = some r →
          ∀ f, c.get f j = .ok (r f))
      ∧ (c.iterEnumList fuel).map Prod.fst = List.range c.data.length)) := by
  constructor
  · intro c n fuel hwf hn hfuel
    have hsome := SoaLayout.getRecord_isSome c n hwf
    have hnone := SoaLayout.getRecord_none c n hwf
    have hlen : (c.iterList fuel).length = n := by
      unfold SoaLayout.iterList
      rw [iterFrom_length c.getRecord n hn hsome hnone fuel 0 (Nat.zero_le n)
        (by omega)]
      omega
    refine ⟨hlen, ?_, ?_, ?_⟩
    · intro j
      unfold SoaLayout.iterList
      have := iterFrom_getElem? c.getRecord n hn hsome hnone fuel 0
        (Nat.zero_le n) (by omega) j
      rwa [Nat.zero_add] at this
    · intro j r hr f
      exact SoaLayout.getRecord_some_get c j r hr f
    · unfold SoaLayout.iterEnumList
      rw [enumIds_map_fst _ (by rw [hlen]; exact hn), hlen]
  · intro c fuel hn hfuel
    have hsome := AosLayout.getRecord_isSome_aos c
    have hnone := AosLayout.getRecord_none_aos c
    have hlen : (c.iterList fuel).length = c.data.length := by
      unfold AosLayout.iterList
      rw [iterFrom_length c.getRecord c.data.length hn hsome hnone fuel 0
        (Nat.zero_le _) (by omega)]
      omega
    refine ⟨hlen, ?_, ?_, ?_⟩
    · intro j
      unfold AosLayout.iterList
      have := iterFrom_getElem? c.getRecord c.data.length hn hsome hnone fuel 0
        (Nat.zero_le _) (by omega) j
      rwa [Nat.zero_add] at this
    · intro j r hr f
      exact AosLayout.getRecord_some_get_aos c j r hr f
    · unfold AosLayout.iterEnumList
      rw [enumIds_map_fst _ (by rw [hlen]; exact hn), hlen]

/-- Witness for C6 at a concrete container of each strategy: iterating a
one-record container yields exactly one view, and the enumerated ids are
exactly [0]. -/
theorem c6_iteration_order_witness :
    ((SoaLayout.iterList (⟨fun i => [natRec 5 i]⟩ : SoaLayout natSchema) 3).length = 1
    ∧ (SoaLayout.iterEnumList (⟨fun i => [natRec 5 i]⟩ : SoaLayout natSchema) 3).map
        Prod.fst = List.range 1)
    ∧ ((AosLayout.iterList (⟨[natRec 6]⟩ : AosLayout natSchema) 2).length = 1
    ∧ (AosLayout.iterEnumList (⟨[natRec 6]⟩ : AosLayout natSchema) 2).map
        Prod.fst = List.range 1) := by
  constructor
  · have h := (c6_iteration_order natSchema).1 ⟨fun i => [natRec 5 i]⟩ 1 3
      (fun i => rfl) (by norm_num) (by norm_num)
    exact ⟨h.1, h.2.2.2⟩
  · have h := (c6_iteration_order natSchema).2 ⟨[natRec 6]⟩ 2
      (by norm_num) (by norm_num)
    exact ⟨h.1, h.2.2.2⟩

/-- Counterexample to C6 as stated: a Row-Major container holding exactly
2^32 records, on which the iterator does not yield exactly `length()`
record views — after 2^32 + 1 steps it has yielded 2^32 + 1 of them (the
32-bit index wraps to 0 instead of terminating). -/
theorem c6_iteration_order_counterexample :
    AosLayout.len (⟨List.replicate 4294967296 (natRec 0)⟩ : AosLayout natSchema)
      = 4294967296
    ∧ (AosLayout.iterList
        (⟨List.replicate 4294967296 (natRec 0)⟩ : AosLayout natSchema)
        4294967297).length ≠ 4294967296 := by
  constructor
  · show (List.replicate 4294967296 (natRec 0)).length = 4294967296
    exact List.length_replicate _ _
  · have htotal : ∀ idx, idx < 4294967296 →
        ((⟨List.replicate 4294967296 (natRec 0)⟩ :
          AosLayout natSchema).getRecord idx).isSome := by
      intro idx h
      unfold AosLayout.getRecord
      rw [dif_pos (show idx < (List.replicate 4294967296
        (natRec 0 : natSchema.Record)).length by
          rw [List.length_replicate]; exact h)]
      rfl
    have h := iterFrom_length_total _ htotal 4294967297 0 (by norm_num)
    unfold AosLayout.iterList
    rw [h]
    norm_num

theorem SoaLayout.diff_eq_some {S : Schema} (x y : SoaLayout S)
    (h : diffOut S x.field y.field ≠ "") :
    x.diff y = some (diffOut S x.field y.field) := by
  unfold SoaLayout.diff
  rw [if_neg h]

theorem AosLayout.diff_eq_some_aos {S : Schema} (x y : AosLayout S)
    (h : diffOut S x.field y.field ≠ "") :
    x.diff y = some (diffOut S x.field y.field) := by
  unfold AosLayout.diff
  rw [if_neg h]

theorem fieldDiffPositions_lt {S : Schema} (f : Fin S.N)
    (xs ys : List (S.Ty f)) (p : Nat × S.Ty f × S.Ty f)
    (hp : p ∈ fieldDiffPositions S f xs ys) :
    p.1 < xs.length ∧ p.1 < ys.length := by
  have hmem := List.mem_of_mem_filter hp
  have hsome : ((xs.zip ys)[p.1]?).isSome := by
    rw [List.mem_enum_iff_getElem?.mp hmem]
    rfl
  have hlt : p.1 < (xs.zip ys).length := by
    by_contra hc
    rw [List.getElem?_eq_none (Nat.le_of_not_lt hc)] at hsome
    exact absurd hsome (by simp)
  rw [List.length_zip] at hlt
  omega

/-- C7: Diff semantics with positional truncation.  For two same-schema
containers of either strategy: the differing positions of each field are
taken from the positional zip of the two `field_f()` sequences (so every
reported position is below both lengths — positions beyond the shorter
sequence are ignored); `diff` returns `None` exactly when no field has a
differing compared position; and when exactly one field differs at exactly
one compared position, `diff` returns the single report line naming that
field, the zero-based position and both values. -/
theorem c7_diff_semantics (S : Schema) :
    (∀ x y : SoaLayout S,
      (∀ (f : Fin S.N) (p : Nat × S.Ty f × S.Ty f),
        p ∈ fieldDiffPositions S f (x.field f) (y.field f) →
        p.1 < (x.field f).length ∧ p.1 < (y.field f).length)
      ∧ (x.diff y = none ↔
          ∀ f, fieldDiffPositions S f (x.field f) (y.field f) = [])
      ∧ (∀ (f0 : Fin S.N) (j0 : Nat) (a b : S.Ty f0),
          fieldDiffPositions S f0 (x.field f0) (y.field f0) = [(j0, a, b)] →
          (∀ f, f ≠ f0 → fieldDiffPositions S f (x.field f) (y.field f) = []) →
          x.diff y =
            some (entryLine (S.fname f0) j0 (S.fmt f0 a) (S.fmt f0 b))))
    ∧ (∀ x y : AosLayout S,
      (∀ (f : Fin S.N) (p : Nat × S.Ty f × S.Ty f),
        p ∈ fieldDiffPositions S f (x.field f) (y.field f) →
        p.1 < (x.field f).length ∧ p.1 < (y.field f).length)
      ∧ (x.diff y = none ↔
          ∀ f, fieldDiffPositions S f (x.field f) (y.field f) = [])
      ∧ (∀ (f0 : Fin S.N) (j0 : Nat) (a b : S.Ty f0),
          fieldDiffPositions S f0 (x.field f0) (y.field f0) = [(j0, a, b)] →
          (∀ f, f ≠ f0 → fieldDiffPositions S f (x.field f) (y.field f) = []) →
          x.diff y =
            some (entryLine (S.fname f0) j0 (S.fmt f0 a) (S.fmt f0 b)))) := by
  constructor
  · intro x y
    refine ⟨fun f p hp => fieldDiffPositions_lt f _ _ p hp, ?_, ?_⟩
    · rw [SoaLayout.diff_eq_none_iff, diffOut_eq_empty_iff]
    · intro f0 j0 a b hf0 hrest
      have hout : diffOut S x.field y.field =
          entryLine (S.fname f0) j0 (S.fmt f0 a) (S.fmt f0 b) :=
        diffOut_single _ _ f0 j0 a b hf0 hrest
      rw [SoaLayout.diff_eq_some x y
        (by rw [hout]; exact entryLine_ne_empty _ _ _ _), hout]
  · intro x y
    refine ⟨fun f p hp => fieldDiffPositions_lt f _ _ p hp, ?_, ?_⟩
    · rw [AosLayout.diff_eq_none_iff_aos, diffOut_eq_empty_iff]
    · intro f0 j0 a b hf0 hrest
      have hout : diffOut S x.field y.field =
          entryLine (S.fname f0) j0 (S.fmt f0 a) (S.fmt f0 b) :=
        diffOut_single _ _ f0 j0 a b hf0 hrest
      rw [AosLayout.diff_eq_some_aos x y
        (by rw [hout]; exact entryLine_ne_empty _ _ _ _), hout]

/-- Witness for C7 at concrete one-record containers differing in their only
field at position 0: the diff is the single report line naming that field,
the position and the two values. -/
theorem c7_diff_semantics_witness :
    SoaLayout.diff (⟨fun i => [natRec 5 i]⟩ : SoaLayout natSchema)
        ⟨fun i => [natRec 6 i]⟩ =
      some (entryLine "val" 0 "5" "6") := by
  exact ((c7_diff_semantics natSchema).1 ⟨fun i => [natRec 5 i]⟩
    ⟨fun i => [natRec 6 i]⟩).2.2 ⟨0, Nat.one_pos⟩ 0
    (natRec 5 ⟨0, Nat.one_pos⟩) (natRec 6 ⟨0, Nat.one_pos⟩)
    (by decide) (by decide)

/-- C8: Diff reflexivity.  For every container of either strategy (any
contents, including ill-formed Columnar states with ragged field vectors),
diffing a container against itself reports no difference. -/
theorem c8_diff_reflexivity (S : Schema) :
    (∀ x : SoaLayout S, x.diff x = none)
    ∧ (∀ x : AosLayout S, x.diff x = none) := by
  constructor
  · intro x
    rw [SoaLayout.diff_eq_none_iff, diffOut_eq_empty_iff]
    intro i
    exact fieldDiffPositions_self i (x.field i)
  · intro x
    rw [AosLayout.diff_eq_none_iff_aos, diffOut_eq_empty_iff]
    intro i
    exact fieldDiffPositions_self i (x.field i)

/-- C9: Diff totality and InvalidDiff unreachability.  Every fallible
generated operation (`get_f`, `get_f_mut`) either succeeds or fails with
exactly its own field's `NotFound_f` variant — never `InvalidDiff`, which
is a distinct variant no generated operation produces — and `diff` is a
total function returning either no-difference or the accumulated report,
never an error. -/
theorem c9_diff_totality_invalid_diff (S : Schema) :
    (∀ (c : SoaLayout S) (f : Fin S.N) (id : Nat),
      (∃ v, c.get f id = .ok v) ∨ c.get f id = .error (.NotFound f))
    ∧ (∀ (c : AosLayout S) (f : Fin S.N) (id : Nat),
      (∃ v, c.get f id = .ok v) ∨ c.get f id = .error (.NotFound f))
    ∧ (∀ (c : SoaLayout S) (f : Fin S.N) (id : Nat) (v : S.Ty f),
      (c.get_mut_set f id v).1 = .ok ()
      ∨ (c.get_mut_set f id v).1 = .error (.NotFound f))
    ∧ (∀ (c : AosLayout S) (f : Fin S.N) (id : Nat) (v : S.Ty f),
      (c.get_mut_set f id v).1 = .ok ()
      ∨ (c.get_mut_set f id v).1 = .error (.NotFound f))
    ∧ (∀ f : Fin S.N, (XsError.NotFound f : XsError S) ≠ .InvalidDiff)
    ∧ (∀ x y : SoaLayout S,
      x.diff y = none ∨ x.diff y = some (diffOut S x.field y.field))
    ∧ (∀ x y : AosLayout S,
      x.diff y = none ∨ x.diff y = some (diffOut S x.field y.field)) := by
  refine ⟨?_, ?_, ?_, ?_, ?_, ?_, ?_⟩
  · intro c f id
    unfold SoaLayout.get
    cases h : (c.cols f)[id]? with
    | some v => exact Or.inl ⟨v, rfl⟩
    | none => exact Or.inr rfl
  · intro c f id
    unfold AosLayout.get
    cases h : c.data[id]? with
    | some r => exact Or.inl ⟨r f, rfl⟩
    | none => exact Or.inr rfl
  · intro c f id v
    unfold SoaLayout.get_mut_set
    by_cases h : id < (c.cols f).length
    · rw [if_pos h]; exact Or.inl rfl
    · rw [if_neg h]; exact Or.inr rfl
  · intro c f id v
    unfold AosLayout.get_mut_set
    by_cases h : id < c.data.length
    · rw [dif_pos h]; exact Or.inl rfl
    · rw [dif_neg h]; exact Or.inr rfl
  · intro f h
    exact XsError.noConfusion h
  · intro x y
    unfold SoaLayout.diff
    by_cases h : diffOut S x.field y.field = ""
    · rw [if_pos h]; exact Or.inl rfl
    · rw [if_neg h]; exact Or.inr rfl
  · intro x y
    unfold AosLayout.diff
    by_cases h : diffOut S x.field y.field = ""
    · rw [if_pos h]; exact Or.inl rfl
    · rw [if_neg h]; exact Or.inr rfl

/-- C10: Frame property of mutation.  For either strategy, overwriting the
value reached through `get_f_mut(Id(i))` with `v` at an in-bounds id leaves
`length()` unchanged, leaves field `f` unchanged at every position other
than `i` (where it becomes `v`), and leaves every other field unchanged at
every position; at an out-of-bounds id the call fails with `NotFound_f` and
the container is entirely unchanged. -/
theorem c10_mutation_frame (S : Schema) :
    (∀ (c : SoaLayout S) (f : Fin S.N) (id : Nat) (v : S.Ty f),
      (id < (c.cols f).length →
        ((c.get_mut_set f id v).2.len = c.len
        ∧ (∀ g, g ≠ f → (c.get_mut_set f id v).2.cols g = c.cols g)
        ∧ (∀ j, j ≠ id →
            ((c.get_mut_set f id v).2.cols f)[j]? = (c.cols f)[j]?)
        ∧ ((c.get_mut_set f id v).2.cols f)[id]? = some v))
      ∧ (¬ id < (c.cols f).length →
        c.get_mut_set f id v = (.error (.NotFound f), c)))
    ∧ (∀ (c : AosLayout S) (f : Fin S.N) (id : Nat) (v : S.Ty f),
      (id < c.data.length →
        ((c.get_mut_set f id v).2.len = c.len
        ∧ (∀ j, j ≠ id →
            (c.get_mut_set f id v).2.data[j]? = c.data[j]?)
        ∧ (∀ g, g ≠ f →
            ((c.get_mut_set f id v).2.data[id]?).map (fun r => r g) =
              (c.data[id]?).map (fun r => r g))
        ∧ ((c.get_mut_set f id v).2.data[id]?).map (fun r => r f) = some v))
      ∧ (¬ id < c.data.length →
        c.get_mut_set f id v = (.error (.NotFound f), c))) := by
  constructor
  · intro c f id v
    constructor
    · intro h
      simp only [SoaLayout.get_mut_set, if_pos h]
      refine ⟨?_, ?_, ?_, ?_⟩
      · show ((Function.update c.cols f ((c.cols f).set id v)) S.first).length
          = c.len
        rw [update_set_length]
        rfl
      · intro g hg
        exact Function.update_noteq hg _ _
      · intro j hj
        show ((Function.update c.cols f ((c.cols f).set id v)) f)[j]? =
          (c.cols f)[j]?
        rw [Function.update_same]
        exact List.getElem?_set_ne (fun he => hj he.symm)
      · show ((Function.update c.cols f ((c.cols f).set id v)) f)[id]? = some v
        rw [Function.update_same]
        exact List.getElem?_set_self h
    · intro h
      simp only [SoaLayout.get_mut_set, if_neg h]
  · intro c f id v
    constructor
    · intro h
      simp only [AosLayout.get_mut_set, dif_pos h]
      have hset : ((c.data.set id
          (Function.update (c.data.get ⟨id, h⟩) f v)))[id]? =
          some (Function.update (c.data.get ⟨id, h⟩) f v) :=
        List.getElem?_set_self h
      refine ⟨?_, ?_, ?_, ?_⟩
      · show (c.data.set id _).length = c.data.length
        exact List.length_set _ _ _
      · intro j hj
        exact List.getElem?_set_ne (fun he => hj he.symm)
      · intro g hg
        rw [hset, List.getElem?_eq_getElem h]
        show some (Function.update (c.data.get ⟨id, h⟩) f v g) = _
        rw [Function.update_noteq hg]
        simp [List.get_eq_getElem]
      · rw [hset]
        show some (Function.update (c.data.get ⟨id, h⟩) f v f) = some v
        rw [Function.update_same]
    · intro h
      simp only [AosLayout.get_mut_set, dif_neg h]

/-- Witness for C10 at a concrete two-record container of each strategy: an
in-bounds overwrite changes exactly the targeted position and an
out-of-bounds overwrite fails leaving the container unchanged. -/
theorem c10_mutation_frame_witness :
    (((⟨fun i => [natRec 1 i, natRec 2 i]⟩ : SoaLayout natSchema).get_mut_set
        ⟨0, Nat.one_pos⟩ 1 (natRec 9 ⟨0, Nat.one_pos⟩)).2.cols
        ⟨0, Nat.one_pos⟩)[1]? = some (natRec 9 ⟨0, Nat.one_pos⟩)
    ∧ (((⟨fun i => [natRec 1 i, natRec 2 i]⟩ :
        SoaLayout natSchema).get_mut_set ⟨0, Nat.one_pos⟩ 1
        (natRec 9 ⟨0, Nat.one_pos⟩)).2.cols ⟨0, Nat.one_pos⟩)[0]? =
      ((⟨fun i => [natRec 1 i, natRec 2 i]⟩ :
        SoaLayout natSchema).cols ⟨0, Nat.one_pos⟩)[0]?
    ∧ (⟨[natRec 3]⟩ : AosLayout natSchema).get_mut_set ⟨0, Nat.one_pos⟩ 7
        (natRec 9 ⟨0, Nat.one_pos⟩) =
      (.error (.NotFound ⟨0, Nat.one_pos⟩), ⟨[natRec 3]⟩) := by
  refine ⟨?_, ?_, ?_⟩
  · exact (((c10_mutation_frame natSchema).1
      ⟨fun i => [natRec 1 i, natRec 2 i]⟩ ⟨0, Nat.one_pos⟩ 1
      (natRec 9 ⟨0, Nat.one_pos⟩)).1 (by decide)).2.2.2
  · exact (((c10_mutation_frame natSchema).1
      ⟨fun i => [natRec 1 i, natRec 2 i]⟩ ⟨0, Nat.one_pos⟩ 1
      (natRec 9 ⟨0, Nat.one_pos⟩)).1 (by decide)).2.2.1 0 (by decide)
  · exact ((c10_mutation_frame natSchema).2 ⟨[natRec 3]⟩ ⟨0, Nat.one_pos⟩ 7
      (natRec 9 ⟨0, Nat.one_pos⟩)).2 (by decide)

/-- Witness for C9 at a concrete container: an out-of-bounds get fails (with
the matching not-found variant, which is distinct from InvalidDiff). -/
theorem c9_diff_totality_invalid_diff_witness :
    ((∃ v, (SoaLayout.new natSchema).get ⟨0, Nat.one_pos⟩ 0 = .ok v)
      ∨ (SoaLayout.new natSchema).get ⟨0, Nat.one_pos⟩ 0 =
          .error (.NotFound ⟨0, Nat.one_pos⟩))
    ∧ (XsError.NotFound (⟨0, Nat.one_pos⟩ : Fin natSchema.N) ≠ .InvalidDiff) :=
  ⟨(c9_diff_totality_invalid_diff natSchema).1 (SoaLayout.new natSchema)
      ⟨0, Nat.one_pos⟩ 0,
    (c9_diff_totality_invalid_diff natSchema).2.2.2.2.1 ⟨0, Nat.one_pos⟩⟩
